import Mathlib

/-!
Verification of the Kobo-UNCaGED metadata reconciliation engine.

The Go sources verified here are `kobo-uncaged/main.go` (the original
single-file build) and `kobo-uncaged/device/device.go` (the refactored
device layer).  Go values are embedded shallowly:

* a Go `string` is a `List Char` (`GoStr`); all strings in play are ASCII;
* a Go `map[string]T` is an association list with insert-replaces-existing
  semantics (`mapInsert` / `mapLookup`); iteration order of the model is the
  list order, and no verified statement depends on it;
* `float64` is modelled by the exact rationals `ℚ` (every numeric literal the
  claims exercise is exactly representable; rounding is out of scope);
* `time.Time` values are carried as their already-formatted RFC3339 strings;
* the SQLite catalog is modelled by its result sets and by logs of the
  operations executed against it;
* filesystem and epub-container reads are oracles passed in as functions.

The `KoboMetadata` struct, the `util` identity-mapper helpers and the
thumbnail scheduling caller live in repository files that are not part of
the staged sources; those definitions are modelled from the spec and say so
in their doc comments.
-/

/-- A Go string, modelled as its list of characters. -/
abbrev GoStr := List Char

/-- Coerce a Lean string literal to the Go string model. -/
def gs (s : String) : GoStr := s.data

/-- Go `strings.HasPrefix(s, pre)`. -/
def goHasPfx (s pre : GoStr) : Bool := pre.isPrefixOf s

/-- Go `strings.TrimPrefix(s, pre)`: `s` without the leading `pre`;
`s` unchanged when `pre` is not a prefix. -/
def goTrimPfx (s pre : GoStr) : GoStr :=
  if pre.isPrefixOf s then s.drop pre.length else s

/-- Go `strings.HasSuffix(s, suf)`. -/
def goHasSfx (s suf : GoStr) : Bool := suf.isSuffixOf s

/-- Go `strings.TrimSuffix(s, suf)`: `s` without the trailing `suf`;
`s` unchanged when `suf` is not a suffix. -/
def goTrimSfx (s suf : GoStr) : GoStr :=
  if suf.isSuffixOf s then s.take (s.length - suf.length) else s

/-- Go `unicode.IsSpace`: the Unicode White_Space property
(the full set Go tests: controls 9-13, space, NEL, NBSP, OGHAM space,
the en-quad..hair-space block, line/paragraph separators, NNBSP, MMSP,
ideographic space). -/
def goIsSpace (c : Char) : Bool :=
  c = ' ' || c = '\t' || c = '\n' || c.toNat = 0x0B || c.toNat = 0x0C ||
  c = '\r' || c.toNat = 0x85 || c.toNat = 0xA0 || c.toNat = 0x1680 ||
  (0x2000 ≤ c.toNat && c.toNat ≤ 0x200A) || c.toNat = 0x2028 ||
  c.toNat = 0x2029 || c.toNat = 0x202F || c.toNat = 0x205F ||
  c.toNat = 0x3000

/-- Go `strings.TrimSpace(s)`: drop White_Space characters from both ends. -/
def goTrimSpace (s : GoStr) : GoStr :=
  ((s.dropWhile goIsSpace).reverse.dropWhile goIsSpace).reverse

/-- Go `strings.Split(s, ",")` (one-character separator): the subslices of
`s` between commas; splitting the empty string yields `[""]`. -/
def goSplitComma : GoStr → List GoStr
  | [] => [[]]
  | c :: rest =>
    if c = ',' then [] :: goSplitComma rest
    else
      match goSplitComma rest with
      | [] => [[c]]
      | g :: groups => (c :: g) :: groups

/-- Go `strings.ToLower` restricted to ASCII (every scheme string the code
compares against is ASCII). -/
def goToLower (s : GoStr) : GoStr := s.map Char.toLower

/-- Is `c` an ASCII decimal digit? -/
def digitChar (c : Char) : Bool := '0' ≤ c && c ≤ '9'

/-- The natural number denoted by a list of decimal digits. -/
def digitsVal (ds : GoStr) : ℕ :=
  ds.foldl (fun a c => 10 * a + (c.toNat - 48)) 0

/-- Model of Go `strconv.ParseFloat(s, 64)` over exact rationals: an optional
sign, decimal digits with an optional fractional part (at least one digit on
one side of the dot), and an optional `e`/`E` exponent.  Returns `none` on any
other input, as `ParseFloat` returns an error there.  The `Inf`/`NaN` words,
hexadecimal floats, digit-group underscores and float64 overflow/rounding are
outside the model; no claim exercises them. -/
def goParseFloat (s : GoStr) : Option ℚ :=
  let signRest : Bool × GoStr :=
    match s with
    | '-' :: r => (true, r)
    | '+' :: r => (false, r)
    | r => (false, r)
  let neg := signRest.1
  let s1 := signRest.2
  let ip := s1.takeWhile digitChar
  let s2 := s1.dropWhile digitChar
  let fracRest : GoStr × GoStr :=
    match s2 with
    | '.' :: r => (r.takeWhile digitChar, r.dropWhile digitChar)
    | r => ([], r)
  let fp := fracRest.1
  let s3 := fracRest.2
  if ip = [] ∧ fp = [] then none
  else
    let mant : Int := (if neg then -1 else 1) * (digitsVal (ip ++ fp) : Int)
    let fden : ℕ := 10 ^ fp.length
    match s3 with
    | [] => some (mkRat mant fden)
    | c :: r =>
      if c = 'e' ∨ c = 'E' then
        let esignRest : Bool × GoStr :=
          match r with
          | '-' :: rr => (true, rr)
          | '+' :: rr => (false, rr)
          | rr => (false, rr)
        let ed := esignRest.2.takeWhile digitChar
        let erest := esignRest.2.dropWhile digitChar
        if ed = [] ∨ erest ≠ [] then none
        else if esignRest.1 then some (mkRat mant (fden * 10 ^ digitsVal ed))
        else some (mkRat (mant * ((10 : Int) ^ digitsVal ed)) fden)
      else none

/-- Lookup in a Go map modelled as an association list. -/
def mapLookup {β : Type} (k : GoStr) : List (GoStr × β) → Option β
  | [] => none
  | (k', v) :: rest => if k' = k then some v else mapLookup k rest

/-- Insert into a Go map modelled as an association list: `m[k] = v`
replaces the binding of `k` when present, otherwise adds one. -/
def mapInsert {β : Type} (k : GoStr) (v : β) : List (GoStr × β) → List (GoStr × β)
  | [] => [(k, v)]
  | (k', v') :: rest =>
    if k' = k then (k, v) :: rest else (k', v') :: mapInsert k v rest

/-- The keys of a modelled Go map. -/
def mapKeys {β : Type} (m : List (GoStr × β)) : List GoStr := m.map Prod.fst

/-- The metadata record cached per book.  Modelled from the spec: the struct's
own file (`kobo-uncaged/kunc.go` in the original layout) is not among the
staged sources; fields follow the spec's Data Model (§3) and every use the
staged sources make of them.  Missing optional fields are `none`, matching
Go's nil pointers; the Go zero value of the struct is the default value here. -/
structure KoboMetadata where
  Lpath : GoStr := []
  UUID : GoStr := []
  Identifiers : List (GoStr × GoStr) := []
  Title : GoStr := []
  Authors : List GoStr := []
  Comments : Option GoStr := none
  Publisher : Option GoStr := none
  Languages : List GoStr := []
  Series : Option GoStr := none
  SeriesIndex : Option ℚ := none
  TitleSort : GoStr := []
  AuthorLinkMap : List (GoStr × GoStr) := []
  Pubdate : Option GoStr := none
  Timestamp : Option GoStr := none
  LastModified : Option GoStr := none
  Size : Int := 0
  Thumbnail : Option GoStr := none
  UserMetadata : List (GoStr × GoStr) := []
  UserCategories : List (GoStr × GoStr) := []
  AuthorSortMap : List (GoStr × GoStr) := []
  deriving DecidableEq

/-- `CreateKoboMetadata` (both sources): the constructor only pre-allocates
the nested maps, so in this model it returns the zero record. -/
def CreateKoboMetadata : KoboMetadata := {}

/-- The in-memory metadata store `metadataMap` / `MetadataMap`:
a Go map from content identifier to record. -/
abbrev MDStore := List (GoStr × KoboMetadata)

/-- The receiver state the identity-mapper methods of `main.go` read:
the active storage prefix `ku.contentIDprefix`. -/
structure KuCtx where
  cidPre : GoStr

/-- `onboardPrefix` of `main.go` / `device.go`. -/
def onboardPre : GoStr := gs "file:///mnt/onboard/"

/-- `sdPrefix` of `main.go` / `device.go`. -/
def sdPre : GoStr := gs "file:///mnt/sd/"

/-- `ku.lpathIsKepub` (`main.go:165`): does the library path end in `.kepub`? -/
def lpathIsKepub (lpath : GoStr) : Bool := goHasSfx lpath (gs ".kepub")

/-- `ku.contentIDisKepub` (`main.go:169`): does the identifier end in
`.kepub.epub`? -/
def contentIDisKepub (contentID : GoStr) : Bool :=
  goHasSfx contentID (gs ".kepub.epub")

/-- `ku.lpathToContentID` (`main.go:136`): append `.epub` to kepub paths,
drop a leading slash, prepend the storage prefix. -/
def lpathToContentID (ku : KuCtx) (lpath : GoStr) : GoStr :=
  let newLpath := if lpathIsKepub lpath then lpath ++ gs ".epub" else lpath
  let newLpath2 := goTrimPfx newLpath (gs "/")
  ku.cidPre ++ newLpath2

/-- `ku.contentIDtoLpath` (`main.go:145`): strip the `.epub` suffix from
kepub identifiers, then strip the storage prefix when present. -/
def contentIDtoLpath (ku : KuCtx) (contentID : GoStr) : GoStr :=
  let newCID :=
    if contentIDisKepub contentID then goTrimSfx contentID (gs ".epub")
    else contentID
  if goHasPfx newCID ku.cidPre then goTrimPfx newCID ku.cidPre else newCID

/-- The receiver state the device-layer reconciler reads: the book root
directory and the active storage prefix. -/
structure KoboCtx where
  bkRootDir : GoStr
  cidPre : GoStr

/-- Modelled from the spec: `util.LpathToContentID` composed with
`util.LpathKepubConvert` — the Identity Mapper's path→identifier operation
(§4.1), whose `util` source file is not among the staged sources; the spec
describes exactly the mapping `main.go` implements, so the model reuses it. -/
def utilLpathToContentID (pre lpath : GoStr) : GoStr :=
  lpathToContentID ⟨pre⟩ lpath

/-- Modelled from the spec: `util.ContentIDtoLpath` — the Identity Mapper's
identifier→path operation (§4.1), mirrored from `main.go`'s implementation. -/
def utilContentIDtoLpath (pre contentID : GoStr) : GoStr :=
  contentIDtoLpath ⟨pre⟩ contentID

/-- Modelled from the spec: `util.ContentIDtoBkPath` — identifier→absolute
file path (§4.1): the root directory joined with the identifier less the
storage prefix (`filepath.Join` modelled as a slash join). -/
def utilContentIDtoBkPath (rootDir contentID pre : GoStr) : GoStr :=
  rootDir ++ gs "/" ++ goTrimPfx contentID pre

/-- One row of the catalog query in `Kobo.readMDfile` (`device.go:303`):
the scanned columns, nullable ones as options. -/
structure CatalogRow where
  ContentID : GoStr
  Title : Option GoStr := none
  Attribution : Option GoStr := none
  Description : Option GoStr := none
  Publisher : Option GoStr := none
  Series : Option GoStr := none
  SeriesNumber : Option GoStr := none
  ContentType : Int := 6
  MimeType : GoStr := []
  deriving DecidableEq

/-- The record synthesized from catalog columns for a row with no cached
entry (`device.go:325-341`): description/publisher/series copied, title when
non-null, series number parsed as a float (parse failure leaves the field
unset), attribution split on commas and whitespace-trimmed per element. -/
def synthFromRow (row : CatalogRow) : KoboMetadata :=
  let bkMD := CreateKoboMetadata
  let bkMD := { bkMD with
    Comments := row.Description
    Publisher := row.Publisher
    Series := row.Series }
  let bkMD :=
    match row.Title with
    | some t => { bkMD with Title := t }
    | none => bkMD
  let bkMD :=
    match row.SeriesNumber with
    | some sn =>
      match goParseFloat sn with
      | some index => { bkMD with SeriesIndex := some index }
      | none => bkMD
    | none => bkMD
  match row.Attribution with
  | some attr => { bkMD with Authors := (goSplitComma attr).map goTrimSpace }
  | none => bkMD

/-- One `dc:identifier` element of an epub package document. -/
structure EpubIdent where
  scheme : GoStr
  data : GoStr
  deriving DecidableEq

/-- One `dc:creator` element of an epub package document. -/
structure EpubCreator where
  role : GoStr
  data : GoStr
  deriving DecidableEq

/-- One `meta` element of an epub package document. -/
structure EpubMetaItem where
  name : GoStr
  content : GoStr
  deriving DecidableEq

/-- The package metadata `epub.Open` hands back (`bk.Opf.Metadata`):
the fields `readEpubMeta` consumes. -/
structure EpubBook where
  identifiers : List EpubIdent := []
  titles : List GoStr := []
  descriptions : List GoStr := []
  languages : List GoStr := []
  creators : List EpubCreator := []
  publishers : List GoStr := []
  dates : List GoStr := []
  metas : List EpubMetaItem := []
  deriving DecidableEq

/-- The identifier loop of `readEpubMeta` (`device.go:208-219`): a
`calibre`-scheme identifier wins the UUID slot, a `uuid`-scheme one fills it
only when still empty, anything else lands in the identifier map. -/
def applyEpubIdent (md : KoboMetadata) (ident : EpubIdent) : KoboMetadata :=
  let sch := goToLower ident.scheme
  if sch = gs "calibre" then { md with UUID := ident.data }
  else if sch = gs "uuid" then
    if md.UUID = [] then { md with UUID := ident.data } else md
  else { md with Identifiers := mapInsert ident.scheme ident.data md.Identifiers }

/-- The `meta`-element loop of `readEpubMeta` (`device.go:243-261`).  Note
that for `calibre:series_index` the device source always stores the parsed
value, `0` on a parse failure, and that the `calibre:author_link_map` branch
decodes into a discarded local, changing nothing. -/
def applyEpubMetaItem (md : KoboMetadata) (m : EpubMetaItem) : KoboMetadata :=
  if m.name = gs "calibre:timestamp" then { md with Timestamp := some m.content }
  else if m.name = gs "calibre:series" then { md with Series := some m.content }
  else if m.name = gs "calibre:series_index" then
    { md with SeriesIndex := some ((goParseFloat m.content).getD 0) }
  else if m.name = gs "calibre:title_sort" then { md with TitleSort := m.content }
  else md

/-- `Kobo.readEpubMeta` (`device.go:197-263`) after a successful
`epub.Open`, as a pure update of the record: set the library path from the
identifier, then fold the package metadata in source order.  `unescape`
stands in for `html.UnescapeString`. -/
def readEpubMetaBody (pre : GoStr) (unescape : GoStr → GoStr)
    (bk : EpubBook) (contentID : GoStr) (md : KoboMetadata) : KoboMetadata :=
  let md := { md with Lpath := utilContentIDtoLpath pre contentID }
  let md := bk.identifiers.foldl applyEpubIdent md
  let md :=
    match bk.titles with
    | t :: _ => { md with Title := t }
    | [] => md
  let md :=
    match bk.descriptions with
    | d :: _ => { md with Comments := some (unescape d) }
    | [] => md
  let md :=
    if bk.languages ≠ [] then { md with Languages := md.Languages ++ bk.languages }
    else md
  let md := bk.creators.foldl
    (fun md c =>
      if c.role = gs "aut" then { md with Authors := md.Authors ++ [c.data] }
      else md) md
  let md :=
    match bk.publishers with
    | p :: _ => { md with Publisher := some p }
    | [] => md
  let md :=
    match bk.dates with
    | d :: _ => { md with Pubdate := some d }
    | [] => md
  bk.metas.foldl applyEpubMetaItem md

/-- The impure collaborators of the device reconciler, passed in as oracles:
`epub.Open` keyed by book path (`none` = open/parse failure),
`html.UnescapeString`, and `os.Stat` keyed by path (`none` = stat failure;
otherwise file size and RFC3339-formatted modification time). -/
structure Oracles where
  epubOpen : GoStr → Option EpubBook
  unescape : GoStr → GoStr
  statFile : GoStr → Option (Int × GoStr)

/-- The cache lookup `tmpMap` of `Kobo.readMDfile` (`device.go:283-287`):
each cached record's index keyed by the identifier recomputed from its
library path. -/
def buildTmpMap (k : KoboCtx) (koboMD : List KoboMetadata) : List (GoStr × ℕ) :=
  koboMD.enum.foldl
    (fun m p => mapInsert (utilLpathToContentID k.cidPre p.2.Lpath) p.1 m)
    []

/-- The record `Kobo.readMDfile` stores for one catalog row
(`device.go:323-359`): the cached record verbatim when the row's identifier
is in the cache lookup; otherwise the synthesized record, epub-enriched when
the mime type is an epub type and the container opens, then best-effort
stat-enriched. -/
def rowValue (k : KoboCtx) (o : Oracles) (koboMD : List KoboMetadata)
    (tmpMap : List (GoStr × ℕ)) (row : CatalogRow) : KoboMetadata :=
  match mapLookup row.ContentID tmpMap with
  | some n => koboMD.getD n CreateKoboMetadata
  | none =>
    let bkMD := synthFromRow row
    let bkMD :=
      if row.MimeType = gs "application/epub+zip" ∨
          row.MimeType = gs "application/x-kobo-epub+zip" then
        match o.epubOpen (utilContentIDtoBkPath k.bkRootDir row.ContentID k.cidPre) with
        | some bk => readEpubMetaBody k.cidPre o.unescape bk row.ContentID bkMD
        | none => bkMD
      else bkMD
    match o.statFile (k.bkRootDir ++ gs "/" ++ bkMD.Lpath) with
    | some (sz, modTime) => { bkMD with LastModified := some modTime, Size := sz }
    | none => bkMD

/-- The row loop of `Kobo.readMDfile` (`device.go:318-360`): starting from
the freshly made empty map, store each row's record under the row's
identifier. -/
def readMDfileStore (k : KoboCtx) (o : Oracles) (koboMD : List KoboMetadata)
    (rows : List CatalogRow) : MDStore :=
  rows.foldl
    (fun st row => mapInsert row.ContentID (rowValue k o koboMD (buildTmpMap k koboMD) row) st)
    []

/-- `Kobo.WriteMDfile` (`device.go:373-381`): the slice serialized to the
side-cache file — one record per map entry, written through `util.WriteJSON`,
which (modelled from the spec, §4.2/§3) fully replaces the file's prior
content with exactly this sequence. -/
def WriteMDfileDevice (mm : MDStore) : List KoboMetadata := mm.map Prod.snd

/-- The side-cache contents after `Kobo.readMDfile` finishes
(`device.go:366`): the rebuilt store, serialized. -/
def readMDfileFile (k : KoboCtx) (o : Oracles) (koboMD : List KoboMetadata)
    (rows : List CatalogRow) : List KoboMetadata :=
  WriteMDfileDevice (readMDfileStore k o koboMD rows)

/-- `ku.writeMDfile` of `main.go:423-437`, exactly as written: the slice is
created by `make([]KoboMetadata, len(map))` — `len(map)` zero-valued
elements — and each record is then *appended* after them, so the serialized
sequence is the zero records followed by the real ones. -/
def writeMDfileMain (mm : MDStore) : List KoboMetadata :=
  let metadata := List.replicate mm.length ({} : KoboMetadata)
  mm.foldl (fun acc p => acc ++ [p.2]) metadata

/-- One operation `Kobo.UpdateIfExists` executes against the catalog. -/
inductive DbOp where
  | sizeQuery (cid : GoStr)
  | sizeUpdate (newLen : Int) (cid : GoStr)
  deriving DecidableEq

/-- `Kobo.UpdateIfExists` (`device.go:127-155`).  `dbSize` models the
catalog's `___FileSize` column for ContentType-6 rows (`none` = no such
row, in which case `Scan` returns `sql.ErrNoRows` and the method errors).
Returns the method's result together with the log of catalog operations. -/
def UpdateIfExists (mm : MDStore) (dbSize : GoStr → Option Int)
    (cID : GoStr) (len : Int) : Except Unit Unit × List DbOp :=
  match mapLookup cID mm with
  | some _ =>
    match dbSize cID with
    | none => (Except.error (), [DbOp.sizeQuery cID])
    | some currSize =>
      if currSize ≠ len then
        (Except.ok (), [DbOp.sizeQuery cID, DbOp.sizeUpdate len cID])
      else (Except.ok (), [DbOp.sizeQuery cID])
  | none => (Except.ok (), [])

/-- The parameters of one `UPDATE content SET Description, Series,
SeriesNumber, SeriesNumberFloat WHERE ContentID` statement executed by
`Kobo.UpdateNickelDB`; `none` is SQL NULL.  `SeriesNumber` is the
`strconv.FormatFloat` rendering of the index; the rendered text is modelled
by its numeric value, since only its NULLness and provenance matter. -/
structure ExecParams where
  Description : Option GoStr
  Series : Option GoStr
  SeriesNumber : Option ℚ
  SeriesNumberFloat : Option ℚ
  ContentID : GoStr
  deriving DecidableEq

/-- The per-identifier body of `Kobo.UpdateNickelDB` (`device.go:501-516`):
description and series pass through only when non-nil and non-empty, the
series-number pair only when the index is non-nil and not `0.0`; a missing
map entry reads as the Go zero record. -/
def execParamsFor (mm : MDStore) (cid : GoStr) : ExecParams :=
  let md := (mapLookup cid mm).getD {}
  let desc : Option GoStr :=
    match md.Comments with
    | some c => if c ≠ [] then some c else none
    | none => none
  let series : Option GoStr :=
    match md.Series with
    | some s => if s ≠ [] then some s else none
    | none => none
  let seriesNumPair : Option ℚ × Option ℚ :=
    match md.SeriesIndex with
    | some index => if index ≠ 0 then (some index, some index) else (none, none)
    | none => (none, none)
  ⟨desc, series, seriesNumPair.1, seriesNumPair.2, cid⟩

/-- `Kobo.UpdateNickelDB` (`device.go:487-522`): the sequence of UPDATE
executions, one per entry of `UpdatedMetadata` (a slice of content
identifiers), in order. -/
def UpdateNickelDB (mm : MDStore) (updatedMetadata : List GoStr) : List ExecParams :=
  updatedMetadata.map (execParamsFor mm)

/-- An observable event of the thumbnail pipeline's interleaved execution:
a cover-processing unit writing into a thumbnail target directory, a unit
finishing (its deferred `Wg.Done`, `device.go:423`), or `Kobo.Close`'s
`Wg.Wait` returning (`device.go:526`). -/
inductive ThumbEvent where
  | write (u : ℕ) (path : GoStr)
  | unitDone (u : ℕ)
  | closeRet
  deriving DecidableEq

/-- The wait-group state of the thumbnail pipeline. Modelled from the spec
(§4.4, §5): the scheduling caller (not among the staged sources) performs
`Wg.Add` once per scheduled unit, so with `K` units the counter starts at
`K`; each unit's deferred `Wg.Done` decrements it once. -/
structure BarrierState where
  counter : ℕ
  finishedUnits : List ℕ
  closed : Bool
  deriving DecidableEq

/-- The barrier state right after scheduling `K` cover-processing units. -/
def initBarrier (K : ℕ) : BarrierState := ⟨K, [], false⟩

/-- One step of the interleaved execution, `none` when the event cannot
happen in state `s`.  A unit writes only while still running — in
`Kobo.SaveCoverImage` every file write precedes the deferred `Wg.Done` —
and `Wg.Wait` returns only with the counter at zero. -/
def barrierStep (K : ℕ) (s : BarrierState) : ThumbEvent → Option BarrierState
  | ThumbEvent.write u _ =>
    if u < K ∧ u ∉ s.finishedUnits then some s else none
  | ThumbEvent.unitDone u =>
    if u < K ∧ u ∉ s.finishedUnits then
      some ⟨s.counter - 1, u :: s.finishedUnits, s.closed⟩
    else none
  | ThumbEvent.closeRet =>
    if s.counter = 0 then some ⟨s.counter, s.finishedUnits, true⟩ else none

/-- Run a trace of events from a state; `none` when some step is impossible. -/
def runTrace (K : ℕ) : BarrierState → List ThumbEvent → Option BarrierState
  | s, [] => some s
  | s, e :: rest =>
    match barrierStep K s e with
    | some s' => runTrace K s' rest
    | none => none

/-- A trace the interleaved execution can actually produce from `s`. -/
def validTrace (K : ℕ) (s : BarrierState) (tr : List ThumbEvent) : Bool :=
  (runTrace K s tr).isSome

theorem gs_slash : gs "/" = ['/'] := rfl

theorem kepub_append_epub : gs ".kepub" ++ gs ".epub" = gs ".kepub.epub" := rfl

theorem goTrimPfx_of_not (s pre : GoStr) (h : goHasPfx s pre = false) :
    goTrimPfx s pre = s := by
  unfold goHasPfx at h
  unfold goTrimPfx
  simp [h]

theorem goHasPfx_append_self (pre s : GoStr) : goHasPfx (pre ++ s) pre = true := by
  simp [goHasPfx, List.isPrefixOf_iff_prefix]

theorem goTrimPfx_append_self (pre s : GoStr) : goTrimPfx (pre ++ s) pre = s := by
  simp [goTrimPfx, List.isPrefixOf_iff_prefix, List.prefix_append, List.drop_left]

theorem goHasSfx_append_self (s suf : GoStr) : goHasSfx (s ++ suf) suf = true := by
  simp [goHasSfx, List.isSuffixOf_iff_suffix, List.suffix_append]

theorem goTrimSfx_append_self (s suf : GoStr) : goTrimSfx (s ++ suf) suf = s := by
  have hlen : (s ++ suf).length - suf.length = s.length := by
    simp [List.length_append]
  simp [goTrimSfx, List.isSuffixOf_iff_suffix, List.suffix_append, hlen, List.take_left]

theorem suffix_split {s a b : GoStr} (h : s <:+ a ++ b) :
    s <:+ b ∨ ∃ s₁, s₁ <:+ a ∧ s₁ ≠ [] ∧ s = s₁ ++ b := by
  obtain ⟨t, ht⟩ := h
  rcases List.append_eq_append_iff.mp ht with ⟨a2, ha, hs⟩ | ⟨c2, _, hb⟩
  · rcases a2 with _ | ⟨c, cs⟩
    · left
      simp only [List.nil_append] at hs
      exact hs ▸ List.suffix_refl b
    · right
      exact ⟨c :: cs, ⟨t, ha.symm⟩, by simp, hs⟩
  · left
    exact ⟨c2, hb.symm⟩

theorem contentIDisKepub_pre_append {pre p : GoStr} (hd : '.' ∉ pre)
    (h : goHasSfx p (gs ".kepub.epub") = false) :
    goHasSfx (pre ++ p) (gs ".kepub.epub") = false := by
  rw [goHasSfx] at h ⊢
  by_contra hcon
  rw [Bool.not_eq_false, List.isSuffixOf_iff_suffix] at hcon
  rcases suffix_split hcon with hb | ⟨s₁, hs₁, hne, heq⟩
  · exact absurd (List.isSuffixOf_iff_suffix.mpr hb) (by simp [h])
  · rcases s₁ with _ | ⟨c, cs⟩
    · exact hne rfl
    · have h0 : (gs ".kepub.epub").head? = some c := by rw [heq]; rfl
      have h1 : (gs ".kepub.epub").head? = some '.' := rfl
      have hc : ('.' : Char) = c := Option.some.inj (h1.symm.trans h0)
      have hmem : c ∈ pre := hs₁.subset (List.mem_cons_self c cs)
      exact hd (hc ▸ hmem)

theorem goHasPfx_slash_append {p : GoStr} (t : GoStr) (hp : p ≠ [])
    (h : goHasPfx p (gs "/") = false) : goHasPfx (p ++ t) (gs "/") = false := by
  rcases p with _ | ⟨c, cs⟩
  · exact absurd rfl hp
  · simp only [goHasPfx, gs_slash, List.cons_append] at h ⊢
    simpa [List.isPrefixOf] using by simpa [List.isPrefixOf] using h

/-- Claim C1 (amended): for every library-relative path under the active
storage prefix that does not begin with a slash and does not already end in
".kepub.epub", converting the path to a content identifier and back is the
identity: a path not ending in ".kepub" maps to prefix+path and back to
itself, and a path ending in ".kepub" has ".epub" appended during
path→identifier conversion and stripped again by identifier→path
conversion. -/
theorem C1_identity_roundtrip (ku : KuCtx) (p : GoStr)
    (hpre : ku.cidPre = onboardPre ∨ ku.cidPre = sdPre)
    (hslash : goHasPfx p (gs "/") = false)
    (hke : goHasSfx p (gs ".kepub.epub") = false) :
    (lpathIsKepub p = false → lpathToContentID ku p = ku.cidPre ++ p) ∧
    (lpathIsKepub p = true → lpathToContentID ku p = ku.cidPre ++ p ++ gs ".epub") ∧
    contentIDtoLpath ku (lpathToContentID ku p) = p := by
  have hdot : '.' ∉ ku.cidPre := by
    rcases hpre with h | h <;> rw [h] <;> decide
  cases hkep : lpathIsKepub p with
  | false =>
    have hcid : lpathToContentID ku p = ku.cidPre ++ p := by
      simp [lpathToContentID, hkep, goTrimPfx_of_not _ _ hslash]
    refine ⟨fun _ => hcid, fun hcon => absurd hcon (by simp), ?_⟩
    rw [hcid]
    have hnk : contentIDisKepub (ku.cidPre ++ p) = false :=
      contentIDisKepub_pre_append hdot hke
    simp [contentIDtoLpath, hnk, goHasPfx_append_self, goTrimPfx_append_self]
  | true =>
    obtain ⟨t, ht⟩ : ∃ t, t ++ gs ".kepub" = p := by
      have h2 := hkep
      unfold lpathIsKepub goHasSfx at h2
      exact List.isSuffixOf_iff_suffix.mp h2
    have hpne : p ≠ [] := by
      rw [← ht]; simp [gs]
    have hcid : lpathToContentID ku p = ku.cidPre ++ (p ++ gs ".epub") := by
      simp [lpathToContentID, hkep,
        goTrimPfx_of_not _ _ (goHasPfx_slash_append (gs ".epub") hpne hslash)]
    refine ⟨fun hcon => absurd hcon (by simp), fun _ => by
      rw [hcid, List.append_assoc], ?_⟩
    rw [hcid]
    have hke2 : contentIDisKepub (ku.cidPre ++ (p ++ gs ".epub")) = true := by
      show goHasSfx _ _ = true
      have he : ku.cidPre ++ (p ++ gs ".epub") = (ku.cidPre ++ t) ++ gs ".kepub.epub" := by
        rw [← kepub_append_epub, ← ht]
        simp
      rw [he]
      exact goHasSfx_append_self _ _
    have htrim : goTrimSfx (ku.cidPre ++ (p ++ gs ".epub")) (gs ".epub") = ku.cidPre ++ p := by
      have he2 : ku.cidPre ++ (p ++ gs ".epub") = (ku.cidPre ++ p) ++ gs ".epub" := by
        simp
      rw [he2, goTrimSfx_append_self]
    simp [contentIDtoLpath, hke2, htrim, goHasPfx_append_self, goTrimPfx_append_self]

/-- Claim C1, as frozen, is false on the code: the path "a.kepub.epub" does
not end in ".kepub", yet identifier→path does not return it (the ".epub"
suffix is stripped); and the path "/b" maps to prefix+"b", not prefix+path,
and does not round-trip. -/
theorem C1_roundtrip_cex :
    lpathIsKepub (gs "a.kepub.epub") = false ∧
    contentIDtoLpath ⟨onboardPre⟩ (lpathToContentID ⟨onboardPre⟩ (gs "a.kepub.epub")) =
      gs "a.kepub" ∧
    gs "a.kepub" ≠ gs "a.kepub.epub" ∧
    lpathIsKepub (gs "/b") = false ∧
    lpathToContentID ⟨onboardPre⟩ (gs "/b") = onboardPre ++ gs "b" ∧
    contentIDtoLpath ⟨onboardPre⟩ (lpathToContentID ⟨onboardPre⟩ (gs "/b")) = gs "b" ∧
    gs "b" ≠ gs "/b" := by
  decide

/-- Witness for C1 at the spec's own example path "Foo/Bar.kepub". -/
theorem C1_identity_roundtrip_witness :
    ((⟨onboardPre⟩ : KuCtx).cidPre = onboardPre ∨ (⟨onboardPre⟩ : KuCtx).cidPre = sdPre) ∧
    goHasPfx (gs "Foo/Bar.kepub") (gs "/") = false ∧
    goHasSfx (gs "Foo/Bar.kepub") (gs ".kepub.epub") = false ∧
    ((lpathIsKepub (gs "Foo/Bar.kepub") = false →
        lpathToContentID ⟨onboardPre⟩ (gs "Foo/Bar.kepub") = onboardPre ++ gs "Foo/Bar.kepub") ∧
      (lpathIsKepub (gs "Foo/Bar.kepub") = true →
        lpathToContentID ⟨onboardPre⟩ (gs "Foo/Bar.kepub") =
          onboardPre ++ gs "Foo/Bar.kepub" ++ gs ".epub") ∧
      contentIDtoLpath ⟨onboardPre⟩ (lpathToContentID ⟨onboardPre⟩ (gs "Foo/Bar.kepub")) =
        gs "Foo/Bar.kepub") :=
  ⟨Or.inl rfl, by decide, by decide,
    C1_identity_roundtrip ⟨onboardPre⟩ (gs "Foo/Bar.kepub") (Or.inl rfl) (by decide) (by decide)⟩

/-- Claim C4 (amended): a content identifier that does not start with the
active storage prefix and does not end in ".kepub.epub" is returned by
identifier→path conversion completely unchanged; an identifier without the
prefix that ends in ".kepub.epub" still has its ".epub" suffix stripped
before being passed through. -/
theorem C4_passthrough (ku : KuCtx) (contentID : GoStr)
    (hp : goHasPfx contentID ku.cidPre = false)
    (hk : contentIDisKepub contentID = false) :
    contentIDtoLpath ku contentID = contentID := by
  simp [contentIDtoLpath, hk, hp]

/-- Claim C4, as frozen, is false on the code: "a.kepub.epub" lacks the
onboard storage prefix, yet identifier→path conversion strips its ".epub"
suffix instead of returning it unchanged. -/
theorem C4_passthrough_cex :
    goHasPfx (gs "a.kepub.epub") onboardPre = false ∧
    contentIDtoLpath ⟨onboardPre⟩ (gs "a.kepub.epub") = gs "a.kepub" ∧
    gs "a.kepub" ≠ gs "a.kepub.epub" := by
  decide

/-- Witness for C4 at the prefix-less identifier "xyz/book.epub". -/
theorem C4_passthrough_witness :
    goHasPfx (gs "xyz/book.epub") onboardPre = false ∧
    contentIDisKepub (gs "xyz/book.epub") = false ∧
    contentIDtoLpath ⟨onboardPre⟩ (gs "xyz/book.epub") = gs "xyz/book.epub" :=
  ⟨by decide, by decide, C4_passthrough ⟨onboardPre⟩ (gs "xyz/book.epub") (by decide) (by decide)⟩

theorem mapLookup_insert_self {β : Type} (k : GoStr) (v : β) (m : List (GoStr × β)) :
    mapLookup k (mapInsert k v m) = some v := by
  induction m with
  | nil => simp [mapInsert, mapLookup]
  | cons p rest ih =>
    obtain ⟨k', v'⟩ := p
    by_cases h : k' = k
    · simp [mapInsert, mapLookup, h]
    · simp [mapInsert, mapLookup, h, ih]

theorem mapLookup_insert_ne {β : Type} (k k2 : GoStr) (v : β) (m : List (GoStr × β))
    (h : ¬ k = k2) : mapLookup k2 (mapInsert k v m) = mapLookup k2 m := by
  induction m with
  | nil => simp [mapInsert, mapLookup, h]
  | cons p rest ih =>
    obtain ⟨k', v'⟩ := p
    by_cases h2 : k' = k
    · subst h2
      simp [mapInsert, mapLookup, h]
    · by_cases h3 : k' = k2
      · subst h3
        simp [mapInsert, mapLookup, h2]
      · simp [mapInsert, mapLookup, h2, h3, ih]

theorem mem_mapInsert {β : Type} {pr : GoStr × β} {k : GoStr} {v : β}
    {m : List (GoStr × β)} (h : pr ∈ mapInsert k v m) : pr = (k, v) ∨ pr ∈ m := by
  induction m with
  | nil => simpa [mapInsert] using h
  | cons q rest ih =>
    obtain ⟨k', v'⟩ := q
    by_cases h2 : k' = k
    · simp only [mapInsert, if_pos h2] at h
      rcases List.mem_cons.mp h with h3 | h3
      · exact Or.inl h3
      · exact Or.inr (List.mem_cons_of_mem _ h3)
    · simp only [mapInsert, if_neg h2] at h
      rcases List.mem_cons.mp h with h3 | h3
      · exact Or.inr (h3 ▸ List.mem_cons_self _ _)
      · rcases ih h3 with h4 | h4
        · exact Or.inl h4
        · exact Or.inr (List.mem_cons_of_mem _ h4)

theorem mapKeys_insert {β : Type} (k : GoStr) (v : β) (m : List (GoStr × β)) :
    mapKeys (mapInsert k v m) =
      if k ∈ mapKeys m then mapKeys m else mapKeys m ++ [k] := by
  induction m with
  | nil =>
    simp only [mapInsert, mapKeys, List.map_nil, List.map_cons]
    rw [if_neg (List.not_mem_nil k)]
    rfl
  | cons p rest ih =>
    obtain ⟨k', v'⟩ := p
    by_cases h : k' = k
    · subst h
      rw [show mapInsert k' v ((k', v') :: rest) = (k', v) :: rest from by simp [mapInsert]]
      simp only [mapKeys, List.map_cons]
      rw [if_pos (List.mem_cons_self _ _)]
    · have hne : ¬ k = k' := fun e => h e.symm
      simp only [mapInsert, if_neg h, mapKeys, List.map_cons] at ih ⊢
      rw [ih]
      by_cases hm : k ∈ List.map Prod.fst rest
      · rw [if_pos hm, if_pos (List.mem_cons_of_mem _ hm)]
      · rw [if_neg hm, if_neg (by simp [hm, hne]), List.cons_append]

theorem mapKeys_insert_nodup {β : Type} (k : GoStr) (v : β) (m : List (GoStr × β))
    (h : (mapKeys m).Nodup) : (mapKeys (mapInsert k v m)).Nodup := by
  rw [mapKeys_insert]
  by_cases hm : k ∈ mapKeys m
  · rw [if_pos hm]
    exact h
  · rw [if_neg hm, List.nodup_append]
    refine ⟨h, List.nodup_singleton _, ?_⟩
    intro a ha hb
    rw [List.mem_singleton] at hb
    exact hm (hb ▸ ha)

theorem mapLookup_of_mem {β : Type} {m : List (GoStr × β)} {k : GoStr} {v : β}
    (hnd : (mapKeys m).Nodup) (hm : (k, v) ∈ m) : mapLookup k m = some v := by
  induction m with
  | nil => simp at hm
  | cons p rest ih =>
    obtain ⟨k', v'⟩ := p
    simp only [mapKeys, List.map_cons, List.nodup_cons] at hnd
    rcases List.mem_cons.mp hm with he | hrest
    · obtain ⟨h1, h2⟩ := Prod.mk.injEq k v k' v' ▸ he
      subst h1
      subst h2
      simp [mapLookup]
    · have hkmem : k ∈ mapKeys rest := List.mem_map_of_mem Prod.fst hrest
      have hne : ¬ k' = k := fun e => hnd.1 (e ▸ hkmem)
      simp only [mapLookup, if_neg hne]
      exact ih hnd.2 hrest

theorem mapLookup_foldl_not_mem (f : CatalogRow → KoboMetadata) (rows : List CatalogRow) :
    ∀ (st : MDStore) (cid : GoStr), cid ∉ rows.map CatalogRow.ContentID →
      mapLookup cid (rows.foldl (fun st row => mapInsert row.ContentID (f row) st) st) =
        mapLookup cid st := by
  induction rows with
  | nil => intro st cid _; rfl
  | cons row rest ih =>
    intro st cid hcid
    simp only [List.map_cons, List.mem_cons] at hcid
    push_neg at hcid
    rw [List.foldl_cons, ih _ _ hcid.2, mapLookup_insert_ne _ _ _ _ (fun e => hcid.1 e.symm)]

theorem mapLookup_foldl_mem (f : CatalogRow → KoboMetadata) (rows : List CatalogRow) :
    ∀ st : MDStore, (rows.map CatalogRow.ContentID).Nodup →
      ∀ row ∈ rows,
        mapLookup row.ContentID
          (rows.foldl (fun st row => mapInsert row.ContentID (f row) st) st) =
          some (f row) := by
  induction rows with
  | nil => intro st _ row h; simp at h
  | cons r rest ih =>
    intro st hnd row hrow
    simp only [List.map_cons, List.nodup_cons] at hnd
    rcases List.mem_cons.mp hrow with he | hr
    · subst he
      rw [List.foldl_cons, mapLookup_foldl_not_mem _ _ _ _ hnd.1, mapLookup_insert_self]
    · rw [List.foldl_cons]
      exact ih _ hnd.2 row hr

theorem mem_foldl_insert (f : CatalogRow → KoboMetadata) (rows : List CatalogRow) :
    ∀ (st : MDStore) (pr : GoStr × KoboMetadata),
      pr ∈ rows.foldl (fun st row => mapInsert row.ContentID (f row) st) st →
      pr ∈ st ∨ pr.1 ∈ rows.map CatalogRow.ContentID := by
  induction rows with
  | nil => intro st pr h; exact Or.inl h
  | cons r rest ih =>
    intro st pr h
    rw [List.foldl_cons] at h
    rcases ih _ _ h with h2 | h2
    · rcases mem_mapInsert h2 with h3 | h3
      · right
        simp [h3]
      · exact Or.inl h3
    · right
      simp [h2]

theorem nodup_foldl_insert (f : CatalogRow → KoboMetadata) (rows : List CatalogRow) :
    ∀ st : MDStore, (mapKeys st).Nodup →
      (mapKeys (rows.foldl (fun st row => mapInsert row.ContentID (f row) st) st)).Nodup := by
  induction rows with
  | nil => intro st h; exact h
  | cons r rest ih =>
    intro st h
    rw [List.foldl_cons]
    exact ih _ (mapKeys_insert_nodup _ _ _ h)

/-- Claim C2: after the device reconciliation step completes, every content
identifier absent from the catalog query's result set is absent from the
rebuilt in-memory store (in particular, every such identifier present in the
on-disk side-cache is dropped), and every record of the rewritten side-cache
file is the rebuilt store's record for some identifier returned by the
catalog query. -/
theorem C2_authoritative_presence (k : KoboCtx) (o : Oracles)
    (koboMD : List KoboMetadata) (rows : List CatalogRow) :
    (∀ cid, cid ∉ rows.map CatalogRow.ContentID →
        mapLookup cid (readMDfileStore k o koboMD rows) = none) ∧
    (∀ md ∈ readMDfileFile k o koboMD rows,
        ∃ cid, cid ∈ rows.map CatalogRow.ContentID ∧
          mapLookup cid (readMDfileStore k o koboMD rows) = some md) := by
  constructor
  · intro cid hcid
    simp only [readMDfileStore]
    rw [mapLookup_foldl_not_mem _ _ _ _ hcid]
    rfl
  · intro md hmd
    simp only [readMDfileFile, WriteMDfileDevice] at hmd
    obtain ⟨⟨cid, v⟩, hpr, rfl⟩ := List.mem_map.mp hmd
    refine ⟨cid, ?_, ?_⟩
    · have hpr2 := hpr
      simp only [readMDfileStore] at hpr2
      rcases mem_foldl_insert _ _ _ _ hpr2 with h | h
      · simp at h
      · exact h
    · have hnd : (mapKeys (readMDfileStore k o koboMD rows)).Nodup := by
        simp only [readMDfileStore]
        exact nodup_foldl_insert _ _ _ (by simp [mapKeys])
      exact mapLookup_of_mem hnd hpr

/-- Witness for C2: one cached record whose identifier the catalog no longer
returns is gone from the rebuilt store. -/
theorem C2_authoritative_presence_witness :
    (gs "file:///mnt/onboard/gone.epub" ∉
      ([{ ContentID := gs "file:///mnt/onboard/keep.epub",
          MimeType := gs "text/plain" }] : List CatalogRow).map CatalogRow.ContentID) ∧
    mapLookup (gs "file:///mnt/onboard/gone.epub")
      (readMDfileStore ⟨gs "/mnt/onboard", onboardPre⟩
        ⟨fun _ => none, fun s => s, fun _ => none⟩
        [{ Lpath := gs "gone.epub" }]
        [{ ContentID := gs "file:///mnt/onboard/keep.epub",
           MimeType := gs "text/plain" }]) = none :=
  ⟨by decide,
    (C2_authoritative_presence ⟨gs "/mnt/onboard", onboardPre⟩
      ⟨fun _ => none, fun s => s, fun _ => none⟩
      [{ Lpath := gs "gone.epub" }]
      [{ ContentID := gs "file:///mnt/onboard/keep.epub",
         MimeType := gs "text/plain" }]).1
    (gs "file:///mnt/onboard/gone.epub") (by decide)⟩

/-- Claim C5: during device reconciliation, a catalog row whose identifier is
in the cache lookup has the cached record adopted into the rebuilt store
verbatim — the stored record is the cached list element itself, no field
rewritten from catalog columns — while a row with no cached record gets the
synthesized (and optionally container- and stat-enriched) record.  Stated for
result sets with distinct identifiers, which the catalog's key column
guarantees. -/
theorem C5_cached_precedence (k : KoboCtx) (o : Oracles) (koboMD : List KoboMetadata)
    (rows : List CatalogRow) (hnd : (rows.map CatalogRow.ContentID).Nodup) :
    ∀ row ∈ rows,
      mapLookup row.ContentID (readMDfileStore k o koboMD rows) =
        some (rowValue k o koboMD (buildTmpMap k koboMD) row) ∧
      (∀ n, mapLookup row.ContentID (buildTmpMap k koboMD) = some n →
        rowValue k o koboMD (buildTmpMap k koboMD) row = koboMD.getD n CreateKoboMetadata) := by
  intro row hrow
  constructor
  · simp only [readMDfileStore]
    exact mapLookup_foldl_mem _ _ _ hnd row hrow
  · intro n hn
    simp only [rowValue, hn]

/-- Witness for C5: a cached record adopted verbatim over a sparse catalog
row for the same identifier. -/
theorem C5_cached_precedence_witness :
    (([{ ContentID := gs "file:///mnt/onboard/kept.epub",
         Title := some (gs "Catalog Title"),
         MimeType := gs "text/plain" }] : List CatalogRow).map
        CatalogRow.ContentID).Nodup ∧
    ({ ContentID := gs "file:///mnt/onboard/kept.epub",
       Title := some (gs "Catalog Title"),
       MimeType := gs "text/plain" } : CatalogRow) ∈
      ([{ ContentID := gs "file:///mnt/onboard/kept.epub",
          Title := some (gs "Catalog Title"),
          MimeType := gs "text/plain" }] : List CatalogRow) ∧
    mapLookup (gs "file:///mnt/onboard/kept.epub")
      (readMDfileStore ⟨gs "/mnt/onboard", onboardPre⟩
        ⟨fun _ => none, fun s => s, fun _ => none⟩
        [{ Lpath := gs "kept.epub", Title := gs "Cached Title" }]
        [{ ContentID := gs "file:///mnt/onboard/kept.epub",
           Title := some (gs "Catalog Title"),
           MimeType := gs "text/plain" }]) =
      some (rowValue ⟨gs "/mnt/onboard", onboardPre⟩
        ⟨fun _ => none, fun s => s, fun _ => none⟩
        [{ Lpath := gs "kept.epub", Title := gs "Cached Title" }]
        (buildTmpMap ⟨gs "/mnt/onboard", onboardPre⟩
          [{ Lpath := gs "kept.epub", Title := gs "Cached Title" }])
        { ContentID := gs "file:///mnt/onboard/kept.epub",
          Title := some (gs "Catalog Title"),
          MimeType := gs "text/plain" }) :=
  ⟨by decide, by decide,
    ((C5_cached_precedence ⟨gs "/mnt/onboard", onboardPre⟩
        ⟨fun _ => none, fun s => s, fun _ => none⟩
        [{ Lpath := gs "kept.epub", Title := gs "Cached Title" }]
        [{ ContentID := gs "file:///mnt/onboard/kept.epub",
           Title := some (gs "Catalog Title"),
           MimeType := gs "text/plain" }] (by decide))
      { ContentID := gs "file:///mnt/onboard/kept.epub",
        Title := some (gs "Catalog Title"),
        MimeType := gs "text/plain" } (by decide)).1⟩

/-- Claim C6: a record synthesized from a catalog row with a non-null
attribution string gets as authors the attribution split on every comma with
whitespace trimmed from each element; in particular the spec's example
"A. Author,  B. Author" yields exactly ["A. Author", "B. Author"]. -/
theorem C6_authors_split (row : CatalogRow) (a : GoStr)
    (h : row.Attribution = some a) :
    (synthFromRow row).Authors = (goSplitComma a).map goTrimSpace ∧
    (goSplitComma (gs "A. Author,  B. Author")).map goTrimSpace =
      [gs "A. Author", gs "B. Author"] := by
  constructor
  · simp [synthFromRow, h]
  · decide

/-- Witness for C6 at the spec's example attribution. -/
theorem C6_authors_split_witness :
    ({ ContentID := gs "file:///mnt/onboard/a.epub",
       Attribution := some (gs "A. Author,  B. Author") } : CatalogRow).Attribution =
      some (gs "A. Author,  B. Author") ∧
    (synthFromRow ({ ContentID := gs "file:///mnt/onboard/a.epub",
                     Attribution := some (gs "A. Author,  B. Author") } : CatalogRow)).Authors =
      (goSplitComma (gs "A. Author,  B. Author")).map goTrimSpace :=
  ⟨rfl,
    (C6_authors_split ({ ContentID := gs "file:///mnt/onboard/a.epub",
                         Attribution := some (gs "A. Author,  B. Author") } : CatalogRow)
      (gs "A. Author,  B. Author") rfl).1⟩

/-- Claim C7: when a record is synthesized from a catalog row, a series
number that parses as a float becomes the series index; a parse failure
leaves the field unset and changes nothing else about the synthesis, and the
spec's examples hold: "2.5" parses to 2.5 and "abc" fails to parse. -/
theorem C7_series_index (row : CatalogRow) (s : GoStr)
    (h : row.SeriesNumber = some s) :
    (∀ x, goParseFloat s = some x → (synthFromRow row).SeriesIndex = some x) ∧
    (goParseFloat s = none →
      (synthFromRow row).SeriesIndex = none ∧
      synthFromRow row = synthFromRow { row with SeriesNumber := none }) ∧
    goParseFloat (gs "2.5") = some (5 / 2 : ℚ) ∧
    goParseFloat (gs "abc") = none := by
  refine ⟨?_, ?_, ?_, by decide⟩
  · intro x hx
    obtain ⟨cid, title, attr, desc, pubr, ser, sn, ct, mt⟩ := row
    simp only [CatalogRow.SeriesNumber] at h
    subst h
    cases title <;> cases attr <;> simp [synthFromRow, hx]
  · intro hx
    obtain ⟨cid, title, attr, desc, pubr, ser, sn, ct, mt⟩ := row
    simp only [CatalogRow.SeriesNumber] at h
    subst h
    cases title <;> cases attr <;> simp [synthFromRow, hx, CreateKoboMetadata]
  · have h1 : goParseFloat (gs "2.5") = some (mkRat 25 10) := by decide
    have h2 : (mkRat 25 10 : ℚ) = 5 / 2 := by
      rw [Rat.mkRat_eq_div]
      norm_num
    rw [h1, h2]

/-- Witness for C7 at the spec's example series numbers "2.5" and "abc". -/
theorem C7_series_index_witness :
    ({ ContentID := gs "file:///mnt/onboard/b.epub",
       SeriesNumber := some (gs "2.5") } : CatalogRow).SeriesNumber = some (gs "2.5") ∧
    goParseFloat (gs "2.5") = some (5 / 2 : ℚ) ∧
    (synthFromRow ({ ContentID := gs "file:///mnt/onboard/b.epub",
                     SeriesNumber := some (gs "2.5") } : CatalogRow)).SeriesIndex =
      some (5 / 2 : ℚ) ∧
    ({ ContentID := gs "file:///mnt/onboard/b.epub",
       SeriesNumber := some (gs "abc") } : CatalogRow).SeriesNumber = some (gs "abc") ∧
    (synthFromRow ({ ContentID := gs "file:///mnt/onboard/b.epub",
                     SeriesNumber := some (gs "abc") } : CatalogRow)).SeriesIndex = none :=
  ⟨rfl,
    (C7_series_index ({ ContentID := gs "file:///mnt/onboard/b.epub",
                        SeriesNumber := some (gs "2.5") } : CatalogRow)
      (gs "2.5") rfl).2.2.1,
    (C7_series_index ({ ContentID := gs "file:///mnt/onboard/b.epub",
                        SeriesNumber := some (gs "2.5") } : CatalogRow)
        (gs "2.5") rfl).1 (5 / 2 : ℚ)
      ((C7_series_index ({ ContentID := gs "file:///mnt/onboard/b.epub",
                           SeriesNumber := some (gs "2.5") } : CatalogRow)
        (gs "2.5") rfl).2.2.1),
    rfl,
    ((C7_series_index ({ ContentID := gs "file:///mnt/onboard/b.epub",
                         SeriesNumber := some (gs "abc") } : CatalogRow)
        (gs "abc") rfl).2.1 (by decide)).1⟩

/-- Claim C3 fails on `main.go`: for a metadata map with exactly one record,
`ku.writeMDfile` serializes two records — the zero-valued element left by
`make([]KoboMetadata, len(map))` followed by the real record appended after
it — while the refactored `Kobo.WriteMDfile` of `device.go` serializes
exactly the one record. -/
theorem C3_writeMDfile_bug :
    writeMDfileMain [(gs "file:///mnt/onboard/a.epub", { Lpath := gs "a.epub" })] =
      [({} : KoboMetadata), { Lpath := gs "a.epub" }] ∧
    (writeMDfileMain [(gs "file:///mnt/onboard/a.epub", { Lpath := gs "a.epub" })]).length = 2 ∧
    WriteMDfileDevice [(gs "file:///mnt/onboard/a.epub", { Lpath := gs "a.epub" })] =
      [{ Lpath := gs "a.epub" }] := by
  refine ⟨?_, ?_, ?_⟩ <;> decide

/-- Claim C9: `Kobo.UpdateIfExists` neither queries nor writes the catalog
for an identifier missing from the in-memory map (it returns nil at once),
and when the identifier is present and the catalog's stored size already
equals the given length it only queries — no UPDATE is executed. -/
theorem C9_update_if_exists_frame (mm : MDStore) (dbSize : GoStr → Option Int)
    (cID : GoStr) (len : Int) :
    (mapLookup cID mm = none →
      UpdateIfExists mm dbSize cID len = (Except.ok (), [])) ∧
    (∀ v, mapLookup cID mm = some v → dbSize cID = some len →
      UpdateIfExists mm dbSize cID len = (Except.ok (), [DbOp.sizeQuery cID])) := by
  constructor
  · intro h
    simp [UpdateIfExists, h]
  · intro v h hdb
    simp [UpdateIfExists, h, hdb]

/-- Witness for C9: a missing identifier produces no catalog operation, and a
present identifier whose stored size equals the given length produces only
the size query. -/
theorem C9_update_if_exists_frame_witness :
    (mapLookup (gs "file:///mnt/onboard/absent.epub")
        [(gs "file:///mnt/onboard/present.epub", CreateKoboMetadata)] = none ∧
      UpdateIfExists [(gs "file:///mnt/onboard/present.epub", CreateKoboMetadata)]
        (fun _ => some 5) (gs "file:///mnt/onboard/absent.epub") 7 =
        (Except.ok (), [])) ∧
    (mapLookup (gs "file:///mnt/onboard/present.epub")
        [(gs "file:///mnt/onboard/present.epub", CreateKoboMetadata)] =
        some CreateKoboMetadata ∧
      (fun (_ : GoStr) => some (5 : Int)) (gs "file:///mnt/onboard/present.epub") = some 5 ∧
      UpdateIfExists [(gs "file:///mnt/onboard/present.epub", CreateKoboMetadata)]
        (fun _ => some 5) (gs "file:///mnt/onboard/present.epub") 5 =
        (Except.ok (), [DbOp.sizeQuery (gs "file:///mnt/onboard/present.epub")])) :=
  ⟨⟨by decide,
      (C9_update_if_exists_frame
        [(gs "file:///mnt/onboard/present.epub", CreateKoboMetadata)]
        (fun _ => some 5) (gs "file:///mnt/onboard/absent.epub") 7).1 (by decide)⟩,
    ⟨by decide, rfl,
      (C9_update_if_exists_frame
        [(gs "file:///mnt/onboard/present.epub", CreateKoboMetadata)]
        (fun _ => some 5) (gs "file:///mnt/onboard/present.epub") 5).2
        CreateKoboMetadata (by decide) rfl⟩⟩

/-- Claim C10: during catalog write-back, every updated identifier gets
exactly one UPDATE, whose description and series parameters are NULL exactly
when the cached field is nil or empty, and whose two series-number parameters
are NULL exactly when the cached series index is nil or 0.0; non-NULL
parameters carry the cached values themselves. -/
theorem C10_null_writeback (mm : MDStore) (updatedMetadata : List GoStr) :
    (UpdateNickelDB mm updatedMetadata).map ExecParams.ContentID = updatedMetadata ∧
    ∀ cid ∈ updatedMetadata, ∀ md, (mapLookup cid mm).getD {} = md →
      ∃ p ∈ UpdateNickelDB mm updatedMetadata,
        p.ContentID = cid ∧
        (p.Description = none ↔ md.Comments = none ∨ md.Comments = some []) ∧
        (∀ c, p.Description = some c → md.Comments = some c) ∧
        (p.Series = none ↔ md.Series = none ∨ md.Series = some []) ∧
        (∀ c, p.Series = some c → md.Series = some c) ∧
        (p.SeriesNumber = none ↔ md.SeriesIndex = none ∨ md.SeriesIndex = some 0) ∧
        (p.SeriesNumberFloat = none ↔ md.SeriesIndex = none ∨ md.SeriesIndex = some 0) ∧
        (∀ x, p.SeriesNumberFloat = some x → md.SeriesIndex = some x) := by
  constructor
  · simp only [UpdateNickelDB, List.map_map]
    have he : ExecParams.ContentID ∘ execParamsFor mm = id := by
      funext cid
      rfl
    rw [he, List.map_id]
  · intro cid hcid md hmd
    refine ⟨execParamsFor mm cid, List.mem_map_of_mem _ hcid, rfl, ?_, ?_, ?_, ?_, ?_, ?_, ?_⟩
    · rcases hc : md.Comments with _ | c
      · simp [execParamsFor, hmd, hc]
      · by_cases hce : c = [] <;> simp [execParamsFor, hmd, hc, hce]
    · intro c2 hp
      rcases hc : md.Comments with _ | c
      · simp [execParamsFor, hmd, hc] at hp
      · by_cases hce : c = [] <;> simp [execParamsFor, hmd, hc, hce] at hp <;> simp [hp]
    · rcases hc : md.Series with _ | c
      · simp [execParamsFor, hmd, hc]
      · by_cases hce : c = [] <;> simp [execParamsFor, hmd, hc, hce]
    · intro c2 hp
      rcases hc : md.Series with _ | c
      · simp [execParamsFor, hmd, hc] at hp
      · by_cases hce : c = [] <;> simp [execParamsFor, hmd, hc, hce] at hp <;> simp [hp]
    · rcases hc : md.SeriesIndex with _ | ix
      · simp [execParamsFor, hmd, hc]
      · by_cases hce : ix = 0 <;> simp [execParamsFor, hmd, hc, hce]
    · rcases hc : md.SeriesIndex with _ | ix
      · simp [execParamsFor, hmd, hc]
      · by_cases hce : ix = 0 <;> simp [execParamsFor, hmd, hc, hce]
    · intro x hp
      rcases hc : md.SeriesIndex with _ | ix
      · simp [execParamsFor, hmd, hc] at hp
      · by_cases hce : ix = 0 <;> simp [execParamsFor, hmd, hc, hce] at hp <;> simp [hp]

/-- Witness for C10: one updated record with an empty comment, a non-empty
series and a zero series index gets NULL description, the series value, and
NULL series numbers. -/
theorem C10_null_writeback_witness :
    gs "file:///mnt/onboard/u.epub" ∈ [gs "file:///mnt/onboard/u.epub"] ∧
    (mapLookup (gs "file:///mnt/onboard/u.epub")
        [(gs "file:///mnt/onboard/u.epub",
          ({ Comments := some (gs ""), Series := some (gs "Saga"),
             SeriesIndex := some 0 } : KoboMetadata))]).getD {} =
      ({ Comments := some (gs ""), Series := some (gs "Saga"),
         SeriesIndex := some 0 } : KoboMetadata) ∧
    (∃ p ∈ UpdateNickelDB
        [(gs "file:///mnt/onboard/u.epub",
          ({ Comments := some (gs ""), Series := some (gs "Saga"),
             SeriesIndex := some 0 } : KoboMetadata))]
        [gs "file:///mnt/onboard/u.epub"],
      p.ContentID = gs "file:///mnt/onboard/u.epub" ∧
      (p.Description = none ↔
        ({ Comments := some (gs ""), Series := some (gs "Saga"),
           SeriesIndex := some 0 } : KoboMetadata).Comments = none ∨
        ({ Comments := some (gs ""), Series := some (gs "Saga"),
           SeriesIndex := some 0 } : KoboMetadata).Comments = some []) ∧
      (∀ c, p.Description = some c →
        ({ Comments := some (gs ""), Series := some (gs "Saga"),
           SeriesIndex := some 0 } : KoboMetadata).Comments = some c) ∧
      (p.Series = none ↔
        ({ Comments := some (gs ""), Series := some (gs "Saga"),
           SeriesIndex := some 0 } : KoboMetadata).Series = none ∨
        ({ Comments := some (gs ""), Series := some (gs "Saga"),
           SeriesIndex := some 0 } : KoboMetadata).Series = some []) ∧
      (∀ c, p.Series = some c →
        ({ Comments := some (gs ""), Series := some (gs "Saga"),
           SeriesIndex := some 0 } : KoboMetadata).Series = some c) ∧
      (p.SeriesNumber = none ↔
        ({ Comments := some (gs ""), Series := some (gs "Saga"),
           SeriesIndex := some 0 } : KoboMetadata).SeriesIndex = none ∨
        ({ Comments := some (gs ""), Series := some (gs "Saga"),
           SeriesIndex := some 0 } : KoboMetadata).SeriesIndex = some 0) ∧
      (p.SeriesNumberFloat = none ↔
        ({ Comments := some (gs ""), Series := some (gs "Saga"),
           SeriesIndex := some 0 } : KoboMetadata).SeriesIndex = none ∨
        ({ Comments := some (gs ""), Series := some (gs "Saga"),
           SeriesIndex := some 0 } : KoboMetadata).SeriesIndex = some 0) ∧
      (∀ x, p.SeriesNumberFloat = some x →
        ({ Comments := some (gs ""), Series := some (gs "Saga"),
           SeriesIndex := some 0 } : KoboMetadata).SeriesIndex = some x)) :=
  ⟨List.mem_singleton.mpr rfl, rfl,
    (C10_null_writeback
        [(gs "file:///mnt/onboard/u.epub",
          ({ Comments := some (gs ""), Series := some (gs "Saga"),
             SeriesIndex := some 0 } : KoboMetadata))]
        [gs "file:///mnt/onboard/u.epub"]).2
      (gs "file:///mnt/onboard/u.epub") (List.mem_singleton.mpr rfl)
      ({ Comments := some (gs ""), Series := some (gs "Saga"),
         SeriesIndex := some 0 } : KoboMetadata) rfl⟩

theorem all_lt_mem_of_nodup_length {l : List ℕ} {K : ℕ} (hnd : l.Nodup)
    (hlt : ∀ u ∈ l, u < K) (hlen : K ≤ l.length) : ∀ u, u < K → u ∈ l := by
  intro u hu
  have hsub : l.toFinset ⊆ Finset.range K := by
    intro x hx
    simp only [List.mem_toFinset] at hx
    exact Finset.mem_range.mpr (hlt x hx)
  have hcard : (Finset.range K).card ≤ l.toFinset.card := by
    rw [Finset.card_range, List.toFinset_card_of_nodup hnd]
    exact hlen
  have heq := Finset.eq_of_subset_of_card_le hsub hcard
  have hmem : u ∈ Finset.range K := Finset.mem_range.mpr hu
  rw [← heq] at hmem
  simpa using hmem

theorem runTrace_append (K : ℕ) (xs ys : List ThumbEvent) :
    ∀ s, runTrace K s (xs ++ ys) =
      (runTrace K s xs).bind (fun s2 => runTrace K s2 ys) := by
  induction xs with
  | nil => intro s; rfl
  | cons e rest ih =>
    intro s
    rw [List.cons_append]
    cases h : barrierStep K s e with
    | some s2 => simp [runTrace, h, ih]
    | none => simp [runTrace, h]

theorem barrierStep_inv {K : ℕ} {s s1 : BarrierState} {e : ThumbEvent}
    (h : barrierStep K s e = some s1)
    (h1 : s.counter + s.finishedUnits.length = K) (h2 : s.finishedUnits.Nodup)
    (h3 : ∀ u ∈ s.finishedUnits, u < K) :
    s1.counter + s1.finishedUnits.length = K ∧ s1.finishedUnits.Nodup ∧
      (∀ u ∈ s1.finishedUnits, u < K) := by
  cases e with
  | write u p =>
    by_cases hc : u < K ∧ u ∉ s.finishedUnits
    · simp only [barrierStep, if_pos hc] at h
      obtain rfl := Option.some.inj h
      exact ⟨h1, h2, h3⟩
    · simp [barrierStep, hc] at h
  | unitDone u =>
    by_cases hc : u < K ∧ u ∉ s.finishedUnits
    · simp only [barrierStep, if_pos hc] at h
      obtain rfl := Option.some.inj h
      have hne : s.counter ≠ 0 := by
        intro h0
        have hall := all_lt_mem_of_nodup_length h2 h3 (by omega) u hc.1
        exact hc.2 hall
      refine ⟨by simp only [List.length_cons]; omega,
        List.nodup_cons.mpr ⟨hc.2, h2⟩, ?_⟩
      intro x hx
      rcases List.mem_cons.mp hx with h4 | h4
      · exact h4 ▸ hc.1
      · exact h3 x h4
    · simp [barrierStep, hc] at h
  | closeRet =>
    by_cases hc : s.counter = 0
    · simp only [barrierStep, if_pos hc] at h
      obtain rfl := Option.some.inj h
      exact ⟨h1, h2, h3⟩
    · simp [barrierStep, hc] at h

theorem runTrace_inv (K : ℕ) (tr : List ThumbEvent) :
    ∀ s s2, runTrace K s tr = some s2 →
      s.counter + s.finishedUnits.length = K → s.finishedUnits.Nodup →
      (∀ u ∈ s.finishedUnits, u < K) →
      s2.counter + s2.finishedUnits.length = K ∧ s2.finishedUnits.Nodup ∧
        (∀ u ∈ s2.finishedUnits, u < K) := by
  induction tr with
  | nil =>
    intro s s2 h h1 h2 h3
    obtain rfl : s = s2 := Option.some.inj h
    exact ⟨h1, h2, h3⟩
  | cons e rest ih =>
    intro s s2 h h1 h2 h3
    cases hstep : barrierStep K s e with
    | none => simp [runTrace, hstep] at h
    | some s1 =>
      simp only [runTrace, hstep] at h
      obtain ⟨i1, i2, i3⟩ := barrierStep_inv hstep h1 h2 h3
      exact ih s1 s2 h i1 i2 i3

theorem barrierStep_finished {K : ℕ} {s s1 : BarrierState} {e : ThumbEvent}
    (h : barrierStep K s e = some s1) :
    ∀ u ∈ s1.finishedUnits, u ∈ s.finishedUnits ∨ e = ThumbEvent.unitDone u := by
  intro u hu
  cases e with
  | write v p =>
    by_cases hc : v < K ∧ v ∉ s.finishedUnits
    · simp only [barrierStep, if_pos hc] at h
      obtain rfl := Option.some.inj h
      exact Or.inl hu
    · simp [barrierStep, hc] at h
  | unitDone v =>
    by_cases hc : v < K ∧ v ∉ s.finishedUnits
    · simp only [barrierStep, if_pos hc] at h
      obtain rfl := Option.some.inj h
      rcases List.mem_cons.mp hu with h4 | h4
      · exact Or.inr (by rw [h4])
      · exact Or.inl h4
    · simp [barrierStep, hc] at h
  | closeRet =>
    by_cases hc : s.counter = 0
    · simp only [barrierStep, if_pos hc] at h
      obtain rfl := Option.some.inj h
      exact Or.inl hu
    · simp [barrierStep, hc] at h

theorem barrierStep_finished_mono {K : ℕ} {s s1 : BarrierState} {e : ThumbEvent}
    (h : barrierStep K s e = some s1) :
    ∀ u ∈ s.finishedUnits, u ∈ s1.finishedUnits := by
  intro u hu
  cases e with
  | write v p =>
    by_cases hc : v < K ∧ v ∉ s.finishedUnits
    · simp only [barrierStep, if_pos hc] at h
      obtain rfl := Option.some.inj h
      exact hu
    · simp [barrierStep, hc] at h
  | unitDone v =>
    by_cases hc : v < K ∧ v ∉ s.finishedUnits
    · simp only [barrierStep, if_pos hc] at h
      obtain rfl := Option.some.inj h
      exact List.mem_cons_of_mem _ hu
    · simp [barrierStep, hc] at h
  | closeRet =>
    by_cases hc : s.counter = 0
    · simp only [barrierStep, if_pos hc] at h
      obtain rfl := Option.some.inj h
      exact hu
    · simp [barrierStep, hc] at h

theorem runTrace_done_mem (K : ℕ) (tr : List ThumbEvent) :
    ∀ s s2, runTrace K s tr = some s2 → ∀ u ∈ s2.finishedUnits,
      u ∈ s.finishedUnits ∨ ThumbEvent.unitDone u ∈ tr := by
  induction tr with
  | nil =>
    intro s s2 h u hu
    obtain rfl : s = s2 := Option.some.inj h
    exact Or.inl hu
  | cons e rest ih =>
    intro s s2 h u hu
    cases hstep : barrierStep K s e with
    | none => simp [runTrace, hstep] at h
    | some s1 =>
      simp only [runTrace, hstep] at h
      rcases ih s1 s2 h u hu with h4 | h4
      · rcases barrierStep_finished hstep u h4 with h5 | h5
        · exact Or.inl h5
        · exact Or.inr (h5 ▸ List.mem_cons_self _ _)
      · exact Or.inr (List.mem_cons_of_mem _ h4)

theorem runTrace_no_write (K : ℕ) (tr : List ThumbEvent) :
    ∀ s, (∀ u, u < K → u ∈ s.finishedUnits) → (runTrace K s tr).isSome = true →
      ∀ u p, ThumbEvent.write u p ∉ tr := by
  induction tr with
  | nil =>
    intro s _ _ u p h
    simp at h
  | cons e rest ih =>
    intro s hall hrun u p hmem
    cases hstep : barrierStep K s e with
    | none =>
      simp [runTrace, hstep] at hrun
    | some s1 =>
      rcases List.mem_cons.mp hmem with he | hrest
      · subst he
        by_cases hc : u < K ∧ u ∉ s.finishedUnits
        · exact hc.2 (hall u hc.1)
        · simp [barrierStep, hc] at hstep
      · have hall1 : ∀ v, v < K → v ∈ s1.finishedUnits := fun v hv =>
          barrierStep_finished_mono hstep v (hall v hv)
        have hrun1 : (runTrace K s1 rest).isSome = true := by
          simp only [runTrace, hstep] at hrun
          exact hrun
        exact ih s1 hall1 hrun1 u p hrest

/-- Claim C8: for K scheduled cover-processing units, in every trace the
interleaved execution can produce, when the shutdown call returns every one
of the K units has already completed (its deferred wait-group Done has run),
and no thumbnail write occurs anywhere after the shutdown return. -/
theorem C8_thumbnail_barrier (K : ℕ) (pre post : List ThumbEvent)
    (hv : validTrace K (initBarrier K) (pre ++ ThumbEvent.closeRet :: post) = true) :
    (∀ u, u < K → ThumbEvent.unitDone u ∈ pre) ∧
    (∀ u p, ThumbEvent.write u p ∉ post) := by
  unfold validTrace at hv
  rw [Option.isSome_iff_exists] at hv
  obtain ⟨sf, hsf⟩ := hv
  rw [runTrace_append] at hsf
  cases hpre : runTrace K (initBarrier K) pre with
  | none =>
    rw [hpre] at hsf
    simp at hsf
  | some s1 =>
    rw [hpre] at hsf
    simp only [Option.some_bind] at hsf
    cases hstep : barrierStep K s1 ThumbEvent.closeRet with
    | none => simp [runTrace, hstep] at hsf
    | some s2 =>
      have hc0 : s1.counter = 0 := by
        by_cases hc : s1.counter = 0
        · exact hc
        · simp [barrierStep, hc] at hstep
      have hs2 : s2 = ⟨s1.counter, s1.finishedUnits, true⟩ := by
        simp only [barrierStep, if_pos hc0] at hstep
        exact (Option.some.inj hstep).symm
      obtain ⟨i1, i2, i3⟩ := runTrace_inv K pre (initBarrier K) s1 hpre
        (by simp [initBarrier]) (by simp [initBarrier]) (by simp [initBarrier])
      have hall : ∀ u, u < K → u ∈ s1.finishedUnits :=
        all_lt_mem_of_nodup_length i2 i3 (by omega)
      constructor
      · intro u hu
        rcases runTrace_done_mem K pre (initBarrier K) s1 hpre u (hall u hu) with h | h
        · simp [initBarrier] at h
        · exact h
      · have hall2 : ∀ u, u < K → u ∈ s2.finishedUnits := by
          rw [hs2]
          exact hall
        have hrun2 : (runTrace K s2 post).isSome = true := by
          simp only [runTrace, hstep] at hsf
          rw [hsf]
          rfl
        exact runTrace_no_write K post s2 hall2 hrun2

/-- Witness for C8: a two-unit trace in which unit 0 writes and finishes,
unit 1 writes and finishes, and only then the shutdown call returns. -/
theorem C8_thumbnail_barrier_witness :
    validTrace 2 (initBarrier 2)
      ([ThumbEvent.write 0 (gs "p0"), ThumbEvent.unitDone 0,
        ThumbEvent.write 1 (gs "p1"), ThumbEvent.unitDone 1] ++
        ThumbEvent.closeRet :: []) = true ∧
    ((∀ u, u < 2 →
        ThumbEvent.unitDone u ∈
          [ThumbEvent.write 0 (gs "p0"), ThumbEvent.unitDone 0,
           ThumbEvent.write 1 (gs "p1"), ThumbEvent.unitDone 1]) ∧
      (∀ u p, ThumbEvent.write u p ∉ ([] : List ThumbEvent))) :=
  ⟨by decide,
    C8_thumbnail_barrier 2
      [ThumbEvent.write 0 (gs "p0"), ThumbEvent.unitDone 0,
       ThumbEvent.write 1 (gs "p1"), ThumbEvent.unitDone 1] [] (by decide)⟩
